import Mathlib

/-
Verification development for the page-parser-tree library.

The embedding translates the JavaScript sources into Lean:
  * live sets are modelled as ordered lists of their current members
    (merge is concatenation, filter is List.filter, flatMap is a
    flat map over the list);
  * elements of the document are opaque values (Nat identifiers);
  * the document structure is a parameter `dom : Elem -> List Elem`
    giving the current direct children of an element (this models the
    makeElementChildLiveSet leaf factory, whose file is not present);
  * a CSS selector string is represented by the predicate that
    matchesSelector gives it, so the string selector operator carries
    an `Elem -> Bool` directly;
  * fallible code returns `Except String`, carrying the message of the
    JavaScript Error.

The `parents` field of an element context is kept polymorphic (a type
parameter `π`) in the pipeline compilers: the JavaScript operators copy
the `parents` reference without ever inspecting the array, and a
polymorphic field can likewise only be passed through, so equality of
this field in the model corresponds to reference identity in the source.
-/

set_option autoImplicit false

namespace PageParser

/-- Document elements are opaque identifiers. -/
abbrev Elem := Nat

/-- A node of the tag-tree (third-party library), identified by the order
of its allocation through the controller. -/
structure TreeNode where
  id : Nat
deriving DecidableEq, Repr

/-- NodeTagPair from src/index.js: `tag` is none for the root entry. -/
structure NodeTagPair where
  tag : Option String
  node : TreeNode
deriving DecidableEq, Repr

/-- ElementContext from src/index.js: an element together with its chain
of tagged ancestors. The type of `parents` is a parameter `π`; the
orchestrator instantiates it with `List NodeTagPair`, while theorems
about reference propagation leave it opaque. -/
structure ECtx (π : Type) where
  el : Elem
  parents : π
deriving DecidableEq, Repr

/-- Selector from src/index.js. A CSS selector string is embedded as the
matching predicate it denotes; the `$watch` condition likewise. -/
inductive Selector where
  | str : (Elem → Bool) → Selector
  | filterOp : (Elem → Bool) → Selector
  | mapOp : (Elem → Option Elem) → Selector
  | watchOp : (attributeFilter : List String) → (cond : Elem → Bool) → Selector
  | orOp : List (List Selector) → Selector
  | logOp : String → Selector

/-- A live-set transformer: in the list model, a function from the
current members of the source set to the members of the derived set. -/
abbrev Trans (π : Type) : Type := List (ECtx π) → List (ECtx π)

/-- Composition fold shared by both compilers:
`transformers.reduce((combined, transformer) => liveSet =>
transformer(combined(liveSet)), x => x)`. -/
def composeAll {π : Type} (ts : List (Trans π)) : Trans π :=
  ts.foldl (fun combined transformer => fun liveSet => transformer (combined liveSet))
    (fun x => x)

section EmbeddedCompiler

variable {π : Type} (dom : Elem → List Elem)

mutual

/-- One case of the embedded compiler `makeLiveSetTransformer` in
src/index.js (the orchestrator module). The string operator flat-maps
each context to the filtered children of its element, wrapping them with
the same `parents`; `$or` recursively compiles every branch against the
same input and merges (concatenates) the outputs; `$watch` is
unimplemented and throws `TODO`; `$log` is a filter whose predicate
always returns true; `$filter` filters on the element; `$map` replaces
the element and drops contexts where the result is absent (the
map-then-filter transducer is fused into one filterMap). -/
def compileItem : Selector → Except String (Trans π)
  | .str p =>
      .ok (fun liveSet => liveSet.flatMap (fun ec =>
        ((dom ec.el).filter p).map (fun e => ⟨e, ec.parents⟩)))
  | .orOp branches =>
      match compileBranches branches with
      | .error e => .error e
      | .ok ts => .ok (fun liveSet => (ts.map (fun t => t liveSet)).flatten)
  | .watchOp _ _ => .error "TODO"
  | .logOp _ => .ok (fun liveSet => liveSet.filter (fun _ => true))
  | .filterOp p => .ok (fun liveSet => liveSet.filter (fun ec => p ec.el))
  | .mapOp f =>
      .ok (fun liveSet => liveSet.filterMap (fun ec =>
        (f ec.el).map (fun e => ⟨e, ec.parents⟩)))

/-- The eager `selectors.map(...)` over the items: the first JavaScript
throw wins, in list order. -/
def compileItems : List Selector → Except String (List (Trans π))
  | [] => .ok []
  | item :: rest =>
      match compileItem item with
      | .error e => .error e
      | .ok t =>
        match compileItems rest with
        | .error e => .error e
        | .ok ts => .ok (t :: ts)

/-- The eager `item.$or.map(makeLiveSetTransformer)` over the branches. -/
def compileBranches : List (List Selector) → Except String (List (Trans π))
  | [] => .ok []
  | b :: bs =>
      match compileItems b with
      | .error e => .error e
      | .ok ts =>
        match compileBranches bs with
        | .error e => .error e
        | .ok rest => .ok (composeAll ts :: rest)

end

/-- makeLiveSetTransformer from src/index.js: compile every item, then
fold the transformations into one composed function. -/
def makeLiveSetTransformer (selectors : List Selector) : Except String (Trans π) :=
  match compileItems dom selectors with
  | .error e => .error e
  | .ok ts => .ok (composeAll ts)

end EmbeddedCompiler

section StandaloneCompiler

variable {π : Type} (dom : Elem → List Elem)

/-- Modelled from the spec: makeFilteredEcChildLiveSet (its file is not
under src/) composes the CSS predicate with the incremental child filter
engine, producing for a context the currently matching direct children
of its element wrapped as contexts inheriting the `parents` of the parent context (spec sections 4.4 and 4.5). -/
def makeFilteredEcChildLiveSet (ec : ECtx π) (p : Elem → Bool) : List (ECtx π) :=
  ((dom ec.el).filter p).map (fun e => ⟨e, ec.parents⟩)

/-- Modelled from the spec: makeMutationObserverLiveSet (its file is not
under src/) maintains a set holding at most the element of the context itself,
present exactly while the condition holds of it (spec section 4.7). -/
def makeMutationObserverLiveSet (ec : ECtx π) (cond : Elem → Bool) : List (ECtx π) :=
  if cond ec.el then [⟨ec.el, ec.parents⟩] else []

mutual

/-- One case of the standalone compiler makeLiveSetTransformerFromSelectors
in src/makeLiveSetTransformerFromSelectors.js. It differs from the
embedded compiler in its leaf factories: the string operator flat-maps
through makeFilteredEcChildLiveSet, and `$watch` is implemented via
makeMutationObserverLiveSet instead of throwing. -/
def standaloneItem : Selector → Except String (Trans π)
  | .str p =>
      .ok (fun liveSet => liveSet.flatMap (fun ec => makeFilteredEcChildLiveSet dom ec p))
  | .orOp branches =>
      match standaloneBranches branches with
      | .error e => .error e
      | .ok ts => .ok (fun liveSet => (ts.map (fun t => t liveSet)).flatten)
  | .watchOp _ cond =>
      .ok (fun liveSet => liveSet.flatMap (fun ec => makeMutationObserverLiveSet ec cond))
  | .logOp _ => .ok (fun liveSet => liveSet.filter (fun _ => true))
  | .filterOp p => .ok (fun liveSet => liveSet.filter (fun ec => p ec.el))
  | .mapOp f =>
      .ok (fun liveSet => liveSet.filterMap (fun ec =>
        (f ec.el).map (fun e => ⟨e, ec.parents⟩)))

/-- Item-by-item compilation for the standalone compiler. -/
def standaloneItems : List Selector → Except String (List (Trans π))
  | [] => .ok []
  | item :: rest =>
      match standaloneItem item with
      | .error e => .error e
      | .ok t =>
        match standaloneItems rest with
        | .error e => .error e
        | .ok ts => .ok (t :: ts)

/-- Branch-by-branch compilation for the standalone compiler. -/
def standaloneBranches : List (List Selector) → Except String (List (Trans π))
  | [] => .ok []
  | b :: bs =>
      match standaloneItems b with
      | .error e => .error e
      | .ok ts =>
        match standaloneBranches bs with
        | .error e => .error e
        | .ok rest => .ok (composeAll ts :: rest)

end

/-- makeLiveSetTransformerFromSelectors from
src/makeLiveSetTransformerFromSelectors.js. -/
def makeLiveSetTransformerFromSelectors (selectors : List Selector) :
    Except String (Trans π) :=
  match standaloneItems dom selectors with
  | .error e => .error e
  | .ok ts => .ok (composeAll ts)

end StandaloneCompiler

section ContainsWatch

mutual

/-- Whether a selector item contains a `$watch` operator, descending into
`$or` branches. -/
def itemHasWatch : Selector → Bool
  | .watchOp _ _ => true
  | .orOp branches => branchesHaveWatch branches
  | _ => false

/-- Whether a selector list contains a `$watch` operator anywhere. -/
def listHasWatch : List Selector → Bool
  | [] => false
  | item :: rest => itemHasWatch item || listHasWatch rest

/-- Whether any `$or` branch contains a `$watch` operator. -/
def branchesHaveWatch : List (List Selector) → Bool
  | [] => false
  | b :: bs => listHasWatch b || branchesHaveWatch bs

end

end ContainsWatch

section Orchestrator

/-- TagOptions from src/index.js. -/
structure TagOptions where
  ownedBy : Option (List String)
deriving DecidableEq, Repr

/-- Watcher from src/index.js: a source is `none` for the page-root
sentinel (`null` in the source) or `some tag`. -/
structure Watcher where
  sources : List (Option String)
  tag : String
  selectors : List Selector

/-- PageParserTreeOptions from src/index.js. The `finders` field is part
of the public shape but never consulted by the orchestrator, and the
`logError` sink is modelled by the `logged` field of `OrchState`, so
neither appears here. -/
structure PageParserTreeOptions where
  tags : List (String × TagOptions)
  watchers : List Watcher

/-- The tag-tree state: the next node identifier to allocate and the
tagged nodes as entries `(node, tag, value, parent)`. Node 0 is the
root and is not listed. -/
structure TreeState where
  nextId : Nat
  taggedNodes : List (TreeNode × String × Elem × TreeNode)
deriving DecidableEq, Repr

/-- The tag-tree root node. -/
def rootNode : TreeNode := ⟨0⟩

/-- The tree as constructed, before any watcher output is processed. -/
def initialTree : TreeState := { nextId := 1, taggedNodes := [] }

/-- Controller operation addTaggedValue: allocate a fresh node for the
value under the given parent. -/
def addTaggedValue (st : TreeState) (parent : TreeNode) (tag : String) (el : Elem) :
    TreeNode × TreeState :=
  let node : TreeNode := ⟨st.nextId⟩
  (node, { nextId := st.nextId + 1,
           taggedNodes := st.taggedNodes ++ [(node, tag, el, parent)] })

/-- The tree entry for a node, when the node is presently in the tree. -/
def lookupNodeEntry (st : TreeState) (n : TreeNode) :
    Option (TreeNode × String × Elem × TreeNode) :=
  st.taggedNodes.find? (fun q => q.1 == n)

/-- Node operation getParent: the parent of a node presently in the
tree, none for a node no longer in the tree (for example after a
cascading removal of an ancestor) and for the root. -/
def getParent (st : TreeState) (n : TreeNode) : Option TreeNode :=
  (lookupNodeEntry st n).map (fun q => q.2.2.2)

/-- Node operation `p.ownsNode(n)`: whether `n` is presently in the tree
with parent `p`. -/
def ownsNode (st : TreeState) (p n : TreeNode) : Bool :=
  match lookupNodeEntry st n with
  | some q => q.2.2.2 == p
  | none => false

/-- Whether a parents entry qualifies as owner in findParentNode:
`taggedParents[i].tag == null || ownedBy.has(taggedParents[i].tag)`. -/
def qualifiesAsOwner (ownedBy : List String) (pr : NodeTagPair) : Bool :=
  match pr.tag with
  | none => true
  | some t => ownedBy.contains t

/-- The loop of findParentNode in src/index.js:
`for (let i=taggedParents.length-1; i>=0; i--)`, stopping at the first
qualifying entry. The Nat argument is one past the current index. -/
def findParentLoop (ownedBy : List String) (taggedParents : List NodeTagPair) :
    Nat → Option TreeNode
  | 0 => none
  | i + 1 =>
      match taggedParents[i]? with
      | none => none
      | some pr =>
          if qualifiesAsOwner ownedBy pr then some pr.node
          else findParentLoop ownedBy taggedParents i

/-- findParentNode from src/index.js: scan the parents innermost-first
for the first qualifying entry; with none found, `throw new Error()`. -/
def findParentNode (ownedBy : List String) (taggedParents : List NodeTagPair) :
    Except String TreeNode :=
  match findParentLoop ownedBy taggedParents taggedParents.length with
  | some n => .ok n
  | none => .error ""

/-- The parents type the orchestrator instantiates pipelines at. -/
abbrev PList := List NodeTagPair

/-- Orchestrator state during live processing: the tree and the errors
routed so far through the configured error sink. -/
structure OrchState where
  tree : TreeState
  logged : List String
deriving DecidableEq, Repr

/-- One application of the liveSetMap callback building `outputSet` in
src/index.js: find the owning parent, attach a new tagged node for the
element (this mutates the tree), then check the element-to-node map —
a duplicate raises `received element twice` (the sink is not invoked;
the source carries a `TODO logError` comment there) — and otherwise
record the association and emit the context extended with the new
tagged ancestor. The third component is the value the map produces, or
the error thrown; the returned state reflects the mutations already
performed when a throw happens. -/
def outputMapStep (tag : String) (ownedBy : List String) (st : OrchState)
    (e2n : List (Elem × TreeNode)) (ec : ECtx PList) :
    OrchState × List (Elem × TreeNode) × Except String (ECtx PList) :=
  match findParentNode ownedBy ec.parents with
  | .error e => (st, e2n, .error e)
  | .ok parentNode =>
      let r := addTaggedValue st.tree parentNode tag ec.el
      let st2 : OrchState := { st with tree := r.2 }
      if (e2n.lookup ec.el).isSome then
        (st2, e2n, .error "received element twice")
      else
        (st2, e2n ++ [(ec.el, r.1)], .ok ⟨ec.el, ec.parents ++ [⟨some tag, r.1⟩]⟩)

/-- One removal notification handled by the subscribe callback in
src/index.js: look up the tracked node (its absence throws), drop the
association, and request removal of the node from the tree only when
its current parent exists and still owns it. The result carries the
updated element-to-node map and the detach requests (parent, tag, node)
issued to the tree controller. -/
def handleRemoval (st : TreeState) (tag : String) (e2n : List (Elem × TreeNode))
    (el : Elem) :
    Except String (List (Elem × TreeNode) × List (TreeNode × String × TreeNode)) :=
  match e2n.lookup el with
  | none => .error "Should not happen: received removal of unseen element"
  | some node =>
      let e2nNew := e2n.filter (fun q => !(q.1 == el))
      match getParent st node with
      | none => .ok (e2nNew, [])
      | some p =>
          if ownsNode st p node then .ok (e2nNew, [(p, tag, node)])
          else .ok (e2nNew, [])

/-- Tag collection from the constructor: seed the tag-options map from
`options.tags` in declaration order, then give every watcher destination
tag not already present the empty options `{}`. -/
def collectTagOptions (tagsOpt : List (String × TagOptions)) :
    List Watcher → List (String × TagOptions)
  | [] => tagsOpt
  | w :: rest =>
      if (tagsOpt.lookup w.tag).isSome then collectTagOptions tagsOpt rest
      else collectTagOptions (tagsOpt ++ [(w.tag, ⟨none⟩)]) rest

/-- The ownedBy set used when wiring a watcher:
`new Set(tagOptions.ownedBy || [])`. -/
def ownedByOf (tagOptions : List (String × TagOptions)) (tag : String) : List String :=
  (((tagOptions.lookup tag).getD ⟨none⟩).ownedBy).getD []

/-- Source resolution from the wiring loop: the root sentinel resolves
to the root matched set, a named tag must have an ecSources entry —
which exists exactly for the collected tags — or
`Unknown source: <tag>` is thrown. -/
def resolveWatcherSources (declared : List String) :
    List (Option String) → Except String Unit
  | [] => .ok ()
  | none :: rest => resolveWatcherSources declared rest
  | some t :: rest =>
      if declared.contains t then resolveWatcherSources declared rest
      else .error ("Unknown source: " ++ t)

/-- Source resolution across the watcher wiring loop, in order. -/
def validateWatchers (declared : List String) : List Watcher → Except String Unit
  | [] => .ok ()
  | w :: rest =>
      match resolveWatcherSources declared w.sources with
      | .error e => .error e
      | .ok _ => validateWatchers declared rest

/-- Eager compilation of every watcher, in order, as in the construction
of `_watcherLiveSetTransformers`. -/
def compileWatchers (dom : Elem → List Elem) :
    List Watcher → Except String (List (Trans PList))
  | [] => .ok []
  | w :: rest =>
      match makeLiveSetTransformer dom w.selectors with
      | .error e => .error e
      | .ok t =>
          match compileWatchers dom rest with
          | .error e => .error e
          | .ok ts => .ok (t :: ts)

/-- The current members of the merged source set of a watcher: the root
matched set for the sentinel, the destination output set of a tag
otherwise; a single source is used directly and several are merged,
which on lists is concatenation either way. -/
def sourceContexts (rootCtx : ECtx PList)
    (tagOutputs : List (String × List (ECtx PList)))
    (sources : List (Option String)) : List (ECtx PList) :=
  (sources.map (fun s =>
    match s with
    | none => [rootCtx]
    | some t => (tagOutputs.lookup t).getD [])).flatten

/-- Fold of `outputMapStep` over the contexts a pipeline delivers during
the flush, threading the orchestrator state and the element-to-node map
and collecting the produced output contexts; a throw from the callback
aborts the flush with the tree as already mutated. -/
def mapOutputs (tag : String) (ownedBy : List String) :
    OrchState → List (Elem × TreeNode) → List (ECtx PList) →
    Except (String × TreeState) (OrchState × List (Elem × TreeNode) × List (ECtx PList))
  | st, e2n, [] => .ok (st, e2n, [])
  | st, e2n, ec :: rest =>
      match outputMapStep tag ownedBy st e2n ec with
      | (st2, _, .error e) => .error (e, st2.tree)
      | (st2, e2n2, .ok outEc) =>
          match mapOutputs tag ownedBy st2 e2n2 rest with
          | .error p => .error p
          | .ok (st3, e2n3, outs) => .ok (st3, e2n3, outEc :: outs)

/-- Append the flushed outputs of a watcher to the aggregated output
set of its destination tag (`ecEntry.controller.add(outputSet)`). -/
def addTagOutputs (tagOutputs : List (String × List (ECtx PList))) (tag : String)
    (outs : List (ECtx PList)) : List (String × List (ECtx PList)) :=
  tagOutputs.map (fun q => if q.1 == tag then (q.1, q.2 ++ outs) else q)

/-- The final synchronous flush (`sub.pullChanges()` over every
subscription): activation is deferred until this point, so only now do
the pipelines see the elements already present and the liveSetMap
callback runs, creating tree nodes. Modelled as one pass over the
watchers in wiring order; a watcher sourcing from a tag sees the
outputs already flushed into that tag. -/
def flushWatchers (tagOptions : List (String × TagOptions)) (rootCtx : ECtx PList) :
    List (Watcher × Trans PList) → OrchState → List (String × List (ECtx PList)) →
    Except (String × TreeState) (OrchState × List (String × List (ECtx PList)))
  | [], st, tagOutputs => .ok (st, tagOutputs)
  | (w, t) :: rest, st, tagOutputs =>
      let inputs := sourceContexts rootCtx tagOutputs w.sources
      match mapOutputs w.tag (ownedByOf tagOptions w.tag) st [] (t inputs) with
      | .error p => .error p
      | .ok (st2, _, outs) =>
          flushWatchers tagOptions rootCtx rest st2 (addTagOutputs tagOutputs w.tag outs)

/-- What construction returns: the tree, the errors routed through the
sink, and the per-tag aggregated outputs. -/
structure ConstructResult where
  tree : TreeState
  logged : List String
  tagOutputs : List (String × List (ECtx PList))
deriving Repr

/-- The PageParserTree constructor from src/index.js, in source order:
collect the tag options (watcher destinations defaulted), build the
tree, eagerly compile the selectors of every watcher with the embedded
compiler (the first throw aborts construction), seed the root matched
set with the context `[(null root pair)]`, resolve the sources of every
watcher (an unknown tag aborts construction), then flush all
subscriptions so elements already present are reflected in the tree
before the constructor returns. Errors carry the message thrown and the
tree state at that moment. -/
def construct (dom : Elem → List Elem) (rootEl : Elem)
    (opts : PageParserTreeOptions) : Except (String × TreeState) ConstructResult :=
  let tagOptions := collectTagOptions opts.tags opts.watchers
  let declared := tagOptions.map (fun q => q.1)
  match compileWatchers dom opts.watchers with
  | .error e => .error (e, initialTree)
  | .ok transformers =>
      let rootCtx : ECtx PList := ⟨rootEl, [⟨none, rootNode⟩]⟩
      match validateWatchers declared opts.watchers with
      | .error e => .error (e, initialTree)
      | .ok _ =>
          let st0 : OrchState := { tree := initialTree, logged := [] }
          let tagOutputs0 := declared.map (fun t => (t, ([] : List (ECtx PList))))
          match flushWatchers tagOptions rootCtx (opts.watchers.zip transformers)
              st0 tagOutputs0 with
          | .error p => .error p
          | .ok (st, tagOutputs) =>
              .ok { tree := st.tree, logged := st.logged, tagOutputs := tagOutputs }

end Orchestrator

section FilterEngine

/-- One mutation record: the reported added and removed nodes. -/
structure MutationRecord where
  addedNodes : List Elem
  removedNodes : List Elem
deriving DecidableEq, Repr

/-- An add or remove notification queued for subscribers. -/
inductive Change where
  | add : Elem → Change
  | remove : Elem → Change
deriving DecidableEq, Repr

/-- The element a change notification is about. -/
def Change.element : Change → Elem
  | .add e => e
  | .remove e => e

/-- Modelled from the spec: one reported added node in the incremental
child filter engine (watchFilteredChildren, whose file is not under
src/; spec section 4.4): an element satisfying the predicate and not
already a member is added to the membership set and an add notification
is queued, from the record alone, with no attachment check. -/
def processAdded (isElement pred : Elem → Bool)
    (st : List Elem × List Change) (n : Elem) : List Elem × List Change :=
  if isElement n && pred n && !(st.1.contains n) then
    (st.1 ++ [n], st.2 ++ [.add n])
  else st

/-- Modelled from the spec: one reported removed node (spec section
4.4): a current member is checked against true current attachment; when
no longer attached the removal is confirmed, and when still attached
the record is stale and ignored entirely. -/
def processRemoved (attached : Elem → Bool)
    (st : List Elem × List Change) (n : Elem) : List Elem × List Change :=
  if st.1.contains n then
    if attached n then st
    else (st.1.erase n, st.2 ++ [.remove n])
  else st

/-- Modelled from the spec: one mutation record, added nodes then
removed nodes, in reported order. -/
def processRecord (isElement pred attached : Elem → Bool)
    (st : List Elem × List Change) (r : MutationRecord) : List Elem × List Change :=
  r.removedNodes.foldl (processRemoved attached)
    (r.addedNodes.foldl (processAdded isElement pred) st)

/-- Modelled from the spec: one processing opportunity of the engine —
every record delivered by the observer is processed in order and all
queued notifications form the single batch delivered to subscribers
(spec sections 4.4 and 4.8). Returns the final membership set and that
batch. -/
def processBatch (isElement pred attached : Elem → Bool) (members : List Elem)
    (records : List MutationRecord) : List Elem × List Change :=
  records.foldl (processRecord isElement pred attached) (members, [])

end FilterEngine

/-- A transformation preserves parents references when every context it
emits carries the parents value of some input context: with the
parents type opaque, equality of this field is reference identity. -/
def ParentsPreserving {π : Type} (T : Trans π) : Prop :=
  ∀ ls ec2, ec2 ∈ T ls → ∃ ec ∈ ls, ec2.parents = ec.parents

/-- An element context whose parents chain starts at the root pair with
absent tag, as every context flowing through the orchestrator does. -/
def headRooted (ec : ECtx PList) : Prop :=
  ec.parents.head? = some ⟨none, rootNode⟩



section CompilerLemmas

variable {π : Type}

mutual

theorem compileItem_ok_of_no_watch (dom : Elem → List Elem) :
    ∀ i : Selector, itemHasWatch i = false → ∃ t, compileItem (π := π) dom i = .ok t
  | .str p, _ => by simp [compileItem]
  | .filterOp p, _ => by simp [compileItem]
  | .mapOp f, _ => by simp [compileItem]
  | .logOp s, _ => by simp [compileItem]
  | .watchOp a c, h => by simp [itemHasWatch] at h
  | .orOp bs, h => by
      obtain ⟨ts, hts⟩ := compileBranches_ok_of_no_watch dom bs
        (by simpa [itemHasWatch] using h)
      simp [compileItem, hts]

theorem compileItems_ok_of_no_watch (dom : Elem → List Elem) :
    ∀ l : List Selector, listHasWatch l = false → ∃ ts, compileItems (π := π) dom l = .ok ts
  | [], _ => by simp [compileItems]
  | i :: rest, h => by
      have h2 : itemHasWatch i = false ∧ listHasWatch rest = false := by
        simpa [listHasWatch] using h
      obtain ⟨t, ht⟩ := compileItem_ok_of_no_watch dom i h2.1
      obtain ⟨ts, hts⟩ := compileItems_ok_of_no_watch dom rest h2.2
      simp [compileItems, ht, hts]

theorem compileBranches_ok_of_no_watch (dom : Elem → List Elem) :
    ∀ bs : List (List Selector), branchesHaveWatch bs = false →
      ∃ ts, compileBranches (π := π) dom bs = .ok ts
  | [], _ => by simp [compileBranches]
  | b :: bs, h => by
      have h2 : listHasWatch b = false ∧ branchesHaveWatch bs = false := by
        simpa [branchesHaveWatch] using h
      obtain ⟨ts, hts⟩ := compileItems_ok_of_no_watch dom b h2.1
      obtain ⟨rest, hrest⟩ := compileBranches_ok_of_no_watch dom bs h2.2
      simp [compileBranches, hts, hrest]

end

mutual

theorem compileItem_error_of_watch (dom : Elem → List Elem) :
    ∀ i : Selector, itemHasWatch i = true → compileItem (π := π) dom i = .error "TODO"
  | .watchOp a c, _ => by simp [compileItem]
  | .str p, h => by simp [itemHasWatch] at h
  | .filterOp p, h => by simp [itemHasWatch] at h
  | .mapOp f, h => by simp [itemHasWatch] at h
  | .logOp s, h => by simp [itemHasWatch] at h
  | .orOp bs, h => by
      have := compileBranches_error_of_watch dom bs
        (by simpa [itemHasWatch] using h)
      simp [compileItem, this]

theorem compileItems_error_of_watch (dom : Elem → List Elem) :
    ∀ l : List Selector, listHasWatch l = true → compileItems (π := π) dom l = .error "TODO"
  | i :: rest, h => by
      rw [listHasWatch] at h
      rcases Bool.or_eq_true_iff.mp h with hi | hr
      · have := compileItem_error_of_watch dom i hi
        simp [compileItems, this]
      · rcases Bool.eq_false_or_eq_true (itemHasWatch i) with hit | hif
        · have := compileItem_error_of_watch dom i hit
          simp [compileItems, this]
        · obtain ⟨t, ht⟩ := compileItem_ok_of_no_watch (π := π) dom i hif
          have := compileItems_error_of_watch dom rest hr
          simp [compileItems, ht, this]

theorem compileBranches_error_of_watch (dom : Elem → List Elem) :
    ∀ bs : List (List Selector), branchesHaveWatch bs = true →
      compileBranches (π := π) dom bs = .error "TODO"
  | b :: bs, h => by
      rw [branchesHaveWatch] at h
      rcases Bool.or_eq_true_iff.mp h with hb | hbs
      · have := compileItems_error_of_watch dom b hb
        simp [compileBranches, this]
      · rcases Bool.eq_false_or_eq_true (listHasWatch b) with hbt | hbf
        · have := compileItems_error_of_watch dom b hbt
          simp [compileBranches, this]
        · obtain ⟨ts, hts⟩ := compileItems_ok_of_no_watch (π := π) dom b hbf
          have := compileBranches_error_of_watch dom bs hbs
          simp [compileBranches, hts, this]

end

theorem makeLiveSetTransformer_error_of_watch (dom : Elem → List Elem)
    (sels : List Selector) (h : listHasWatch sels = true) :
    makeLiveSetTransformer (π := π) dom sels = .error "TODO" := by
  have := compileItems_error_of_watch (π := π) dom sels h
  simp [makeLiveSetTransformer, this]

theorem makeLiveSetTransformer_ok_of_no_watch (dom : Elem → List Elem)
    (sels : List Selector) (h : listHasWatch sels = false) :
    ∃ t, makeLiveSetTransformer (π := π) dom sels = .ok t := by
  obtain ⟨ts, hts⟩ := compileItems_ok_of_no_watch (π := π) dom sels h
  simp [makeLiveSetTransformer, hts]

mutual

theorem standaloneItem_ok (dom : Elem → List Elem) :
    ∀ i : Selector, ∃ t, standaloneItem (π := π) dom i = .ok t
  | .str p => by simp [standaloneItem]
  | .filterOp p => by simp [standaloneItem]
  | .mapOp f => by simp [standaloneItem]
  | .logOp s => by simp [standaloneItem]
  | .watchOp a c => by simp [standaloneItem]
  | .orOp bs => by
      obtain ⟨ts, hts⟩ := standaloneBranches_ok dom bs
      simp [standaloneItem, hts]

theorem standaloneItems_ok (dom : Elem → List Elem) :
    ∀ l : List Selector, ∃ ts, standaloneItems (π := π) dom l = .ok ts
  | [] => by simp [standaloneItems]
  | i :: rest => by
      obtain ⟨t, ht⟩ := standaloneItem_ok dom i
      obtain ⟨ts, hts⟩ := standaloneItems_ok dom rest
      simp [standaloneItems, ht, hts]

theorem standaloneBranches_ok (dom : Elem → List Elem) :
    ∀ bs : List (List Selector), ∃ ts, standaloneBranches (π := π) dom bs = .ok ts
  | [] => by simp [standaloneBranches]
  | b :: bs => by
      obtain ⟨ts, hts⟩ := standaloneItems_ok dom b
      obtain ⟨rest, hrest⟩ := standaloneBranches_ok dom bs
      simp [standaloneBranches, hts, hrest]

end

theorem makeLiveSetTransformerFromSelectors_ok (dom : Elem → List Elem)
    (sels : List Selector) :
    ∃ t, makeLiveSetTransformerFromSelectors (π := π) dom sels = .ok t := by
  obtain ⟨ts, hts⟩ := standaloneItems_ok (π := π) dom sels
  simp [makeLiveSetTransformerFromSelectors, hts]

theorem compileWatchers_error_of_watch (dom : Elem → List Elem)
    (w : Watcher) (hwatch : listHasWatch w.selectors = true) :
    ∀ ws : List Watcher, w ∈ ws → compileWatchers dom ws = .error "TODO"
  | w2 :: rest, hw => by
      rcases List.mem_cons.mp hw with heq | hmem
      · subst heq
        have := makeLiveSetTransformer_error_of_watch (π := PList) dom w.selectors hwatch
        simp [compileWatchers, this]
      · rcases Bool.eq_false_or_eq_true (listHasWatch w2.selectors) with ht | hf
        · have := makeLiveSetTransformer_error_of_watch (π := PList) dom w2.selectors ht
          simp [compileWatchers, this]
        · obtain ⟨t, h2⟩ := makeLiveSetTransformer_ok_of_no_watch (π := PList) dom w2.selectors hf
          have := compileWatchers_error_of_watch dom w hwatch rest hmem
          simp [compileWatchers, h2, this]

end CompilerLemmas


/-- Claim C1: for every PageParserTree constructed with a watcher whose
selector list (including any nested or-branch) contains a watch
operator, construction throws synchronously with the message TODO —
the orchestrator compiles the selectors of every watcher with its
embedded compiler, which unconditionally errors on watch — even though
the standalone compiler module compiles the same selector list without
error. -/
theorem claim_C1 (dom : Elem → List Elem) (rootEl : Elem)
    (opts : PageParserTreeOptions) (w : Watcher) (hw : w ∈ opts.watchers)
    (hwatch : listHasWatch w.selectors = true) :
    construct dom rootEl opts = .error ("TODO", initialTree) ∧
    ∃ T, makeLiveSetTransformerFromSelectors (π := PList) dom w.selectors = .ok T := by
  have hc := compileWatchers_error_of_watch dom w hwatch opts.watchers hw
  exact ⟨by simp [construct, hc],
    makeLiveSetTransformerFromSelectors_ok dom w.selectors⟩

/-- Witness for claim C1 at a concrete configuration: one watcher on the
root source whose selector list is a single watch operator, nested in an
or-branch to exercise the recursive case. -/
theorem claim_C1_witness :
    construct (fun _ => []) 0
      { tags := [],
        watchers := [⟨[none], "a", [.orOp [[.watchOp [] (fun _ => true)]]]⟩] } =
      .error ("TODO", initialTree) ∧
    (makeLiveSetTransformerFromSelectors (π := PList) (fun _ => [])
      [.orOp [[.watchOp [] (fun _ => true)]]]).isOk = true := by
  have h := claim_C1 (fun _ => []) 0
    { tags := [],
      watchers := [⟨[none], "a", [.orOp [[.watchOp [] (fun _ => true)]]]⟩] }
    ⟨[none], "a", [.orOp [[.watchOp [] (fun _ => true)]]]⟩ (by simp)
    (by simp [listHasWatch, itemHasWatch, branchesHaveWatch])
  obtain ⟨T, hT⟩ := h.2
  refine ⟨h.1, ?_⟩
  rw [hT]
  rfl


/-- Claim C2: the literal reorder scenario of the incremental child
filter engine, with A, B, C as elements 0, 1, 2: the root initially has
the one matched child A (membership seeded to [0]); B is really
appended (so 0 and 1 are attached at processing time, 2 never is); the
records added [B, C], removed [A, B, C], added [A, B] are processed as
one delivered batch. The final matched set is exactly [A, B], the
single notification batch is exactly [add B, add C, remove C], and no
event mentions A: the removal record for the still-attached A is
ignored entirely. -/
theorem claim_C2 :
    processBatch (fun _ => true) (fun _ => true) (fun n => n == 0 || n == 1) [0]
        [⟨[1, 2], []⟩, ⟨[], [0, 1, 2]⟩, ⟨[0, 1], []⟩] =
      ([0, 1], [.add 1, .add 2, .remove 2]) ∧
    ((processBatch (fun _ => true) (fun _ => true) (fun n => n == 0 || n == 1) [0]
        [⟨[1, 2], []⟩, ⟨[], [0, 1, 2]⟩, ⟨[0, 1], []⟩]).2.all
      (fun c => !(c.element == 0))) = true := by
  decide

/-- Claim C3: when a pipeline reports an element as newly matched while
the element-to-node map already tracks it under the same tag, the
liveSetMap callback of the orchestrator throws the fatal
`received element twice` error, and nothing is routed through the
configured error sink. -/
theorem claim_C3 (tag : String) (ownedBy : List String) (st : OrchState)
    (e2n : List (Elem × TreeNode)) (ec : ECtx PList) (p n0 : TreeNode)
    (hp : findParentNode ownedBy ec.parents = .ok p)
    (hdup : e2n.lookup ec.el = some n0) :
    (outputMapStep tag ownedBy st e2n ec).2.2 = .error "received element twice" ∧
    (outputMapStep tag ownedBy st e2n ec).1.logged = st.logged := by
  simp [outputMapStep, hp, hdup]

/-- Witness for claim C3: a concrete duplicate element under the root. -/
theorem claim_C3_witness :
    (outputMapStep "a" [] ⟨initialTree, []⟩ [(5, ⟨1⟩)] ⟨5, [⟨none, rootNode⟩]⟩).2.2 =
      .error "received element twice" ∧
    (outputMapStep "a" [] ⟨initialTree, []⟩ [(5, ⟨1⟩)] ⟨5, [⟨none, rootNode⟩]⟩).1.logged =
      ([] : List String) :=
  claim_C3 "a" [] ⟨initialTree, []⟩ [(5, ⟨1⟩)] ⟨5, [⟨none, rootNode⟩]⟩ rootNode ⟨1⟩
    (by rfl) (by rfl)

/-- Claim C9: when the duplicate-element error is thrown, the tree has
already been mutated — addTaggedValue ran before the duplicate check,
appending a second node for the element under the tag — while the
element-to-node map is left unchanged, still holding the first node; so
the operation is not atomic. -/
theorem claim_C9 (tag : String) (ownedBy : List String) (st : OrchState)
    (e2n : List (Elem × TreeNode)) (ec : ECtx PList) (p n0 : TreeNode)
    (hp : findParentNode ownedBy ec.parents = .ok p)
    (hdup : e2n.lookup ec.el = some n0) :
    (outputMapStep tag ownedBy st e2n ec).2.2 = .error "received element twice" ∧
    (outputMapStep tag ownedBy st e2n ec).1.tree.taggedNodes =
      st.tree.taggedNodes ++ [(⟨st.tree.nextId⟩, tag, ec.el, p)] ∧
    (outputMapStep tag ownedBy st e2n ec).1.tree ≠ st.tree ∧
    (outputMapStep tag ownedBy st e2n ec).2.1 = e2n ∧
    e2n.lookup ec.el = some n0 := by
  have hstep : outputMapStep tag ownedBy st e2n ec =
      ((⟨⟨st.tree.nextId + 1,
          st.tree.taggedNodes ++ [(⟨st.tree.nextId⟩, tag, ec.el, p)]⟩,
          st.logged⟩ : OrchState),
        e2n, .error "received element twice") := by
    simp [outputMapStep, hp, hdup, addTaggedValue]
  refine ⟨by simp [hstep], by simp [hstep], ?_, by simp [hstep], hdup⟩
  rw [hstep]
  intro h
  have h2 := congrArg TreeState.taggedNodes h
  simp at h2

/-- Witness for claim C9 at the configuration of the C3 witness. -/
theorem claim_C9_witness :
    (outputMapStep "a" [] ⟨initialTree, []⟩ [(5, ⟨1⟩)] ⟨5, [⟨none, rootNode⟩]⟩).2.2 =
      .error "received element twice" ∧
    (outputMapStep "a" [] ⟨initialTree, []⟩ [(5, ⟨1⟩)] ⟨5, [⟨none, rootNode⟩]⟩).1.tree.taggedNodes =
      initialTree.taggedNodes ++ [(⟨initialTree.nextId⟩, "a", 5, rootNode)] ∧
    (outputMapStep "a" [] ⟨initialTree, []⟩ [(5, ⟨1⟩)] ⟨5, [⟨none, rootNode⟩]⟩).1.tree ≠
      initialTree ∧
    (outputMapStep "a" [] ⟨initialTree, []⟩ [(5, ⟨1⟩)] ⟨5, [⟨none, rootNode⟩]⟩).2.1 =
      [(5, ⟨1⟩)] ∧
    ([(5, (⟨1⟩ : TreeNode))] : List (Elem × TreeNode)).lookup 5 = some ⟨1⟩ :=
  claim_C9 "a" [] ⟨initialTree, []⟩ [(5, ⟨1⟩)] ⟨5, [⟨none, rootNode⟩]⟩ rootNode ⟨1⟩
    (by rfl) (by rfl)


theorem findParentLoop_eq_find (ownedBy : List String) (ps : List NodeTagPair) :
    ∀ i, i ≤ ps.length →
      findParentLoop ownedBy ps i =
        (((ps.take i).reverse.find? (qualifiesAsOwner ownedBy)).map
          (fun pr => pr.node)) := by
  intro i
  induction i with
  | zero => intro _; simp [findParentLoop]
  | succ j ih =>
      intro h
      have hj : j < ps.length := Nat.lt_of_succ_le h
      rw [findParentLoop, List.getElem?_eq_getElem hj]
      rw [List.take_succ, List.getElem?_eq_getElem hj]
      simp only [Option.toList_some, List.reverse_append, List.reverse_cons,
        List.reverse_nil, List.nil_append, List.singleton_append, List.find?_cons]
      rcases hq : qualifiesAsOwner ownedBy ps[j] with _ | _
      · simp [ih (Nat.le_of_lt hj)]
      · simp

/-- Claim C4: findParentNode scans the parents list of the context
innermost-first and selects the first entry whose tag is absent (the
root) or is a member of the ownedBy set of the destination tag — it
returns the node of the first qualifying entry of the reversed list —
and throws a fatal error (an Error with empty message) when no entry
qualifies. -/
theorem claim_C4 (ownedBy : List String) (taggedParents : List NodeTagPair) :
    (findParentNode ownedBy taggedParents =
      match (taggedParents.reverse.find? (qualifiesAsOwner ownedBy)).map
          (fun pr => pr.node) with
      | some n => .ok n
      | none => .error "") ∧
    (∀ pr : NodeTagPair, qualifiesAsOwner ownedBy pr = true ↔
      (pr.tag = none ∨ ∃ t ∈ ownedBy, pr.tag = some t)) := by
  constructor
  · rw [findParentNode,
      findParentLoop_eq_find ownedBy taggedParents taggedParents.length le_rfl,
      List.take_length]
  · intro pr
    rcases pr with ⟨_ | t, node⟩
    · simp [qualifiesAsOwner]
    · simp [qualifiesAsOwner]

theorem lookup_filter_out {β : Type} (el : Elem) (l : List (Elem × β)) :
    (l.filter (fun q => !(q.1 == el))).lookup el = none := by
  induction l with
  | nil => simp
  | cons h t ih =>
      rcases h with ⟨k, v⟩
      by_cases hh : k = el
      · simpa [hh] using ih
      · have hk : (k == el) = false := by simpa using hh
        have he : (el == k) = false := by simpa using Ne.symm hh
        simp [List.filter_cons, hk, List.lookup_cons, he, ih]

/-- Claim C5: on a removal notification for a tracked element, the
subscribe callback drops the element-to-node association and issues a
detach request to the tree controller exactly when the current parent
of the node exists and still owns it; in particular, when the node is
no longer in the tree — as after a cascading removal of an owning
ancestor — no detach request is issued. -/
theorem claim_C5 (st : TreeState) (tag : String) (e2n : List (Elem × TreeNode))
    (el : Elem) (node : TreeNode) (hlook : e2n.lookup el = some node) :
    ∃ reqs, handleRemoval st tag e2n el =
        .ok (e2n.filter (fun q => !(q.1 == el)), reqs) ∧
      (e2n.filter (fun q => !(q.1 == el))).lookup el = none ∧
      (∀ p : TreeNode, (p, tag, node) ∈ reqs ↔
        (getParent st node = some p ∧ ownsNode st p node = true)) ∧
      ((∀ p, getParent st node = some p → ownsNode st p node = false) → reqs = []) ∧
      (lookupNodeEntry st node = none → reqs = []) := by
  rcases hpar : getParent st node with _ | p
  · refine ⟨[], by simp [handleRemoval, hlook, hpar],
      lookup_filter_out el e2n, ?_, fun _ => rfl, fun _ => rfl⟩
    intro p2
    simp [hpar]
  · by_cases howns : ownsNode st p node = true
    · refine ⟨[(p, tag, node)], by simp [handleRemoval, hlook, hpar, howns],
        lookup_filter_out el e2n, ?_, ?_, ?_⟩
      · intro p2
        constructor
        · intro hmem
          have hp2 : p2 = p := by simpa using hmem
          subst hp2
          exact ⟨rfl, howns⟩
        · intro h2
          have hp2 : p = p2 := by simpa using h2.1
          subst hp2
          simp
      · intro hall
        exact absurd howns (by simp [hall p rfl])
      · intro hnone
        rw [getParent, hnone] at hpar
        cases hpar
    · refine ⟨[], by simp [handleRemoval, hlook, hpar, howns],
        lookup_filter_out el e2n, ?_, fun _ => rfl, fun _ => rfl⟩
      intro p2
      simp only [List.not_mem_nil, false_iff, not_and, Option.some.injEq]
      intro hg
      subst hg
      simpa using howns

/-- Witness for claim C5: a tracked element whose node is absent from
the tree (as after a cascading ancestor removal): the association is
dropped and no detach request is issued. -/
theorem claim_C5_witness :
    handleRemoval initialTree "a" [(5, ⟨1⟩)] 5 =
      .ok (([(5, (⟨1⟩ : TreeNode))] : List (Elem × TreeNode)).filter
        (fun q => !(q.1 == 5)), []) := by
  obtain ⟨reqs, h1, _, _, _, h5⟩ := claim_C5 initialTree "a" [(5, ⟨1⟩)] 5 ⟨1⟩ (by rfl)
  rw [h5 rfl] at h1
  exact h1


theorem pp_id {π : Type} : ParentsPreserving (π := π) (fun x => x) :=
  fun _ ec2 h => ⟨ec2, h, rfl⟩

theorem pp_comp {π : Type} {f g : Trans π} (hf : ParentsPreserving f)
    (hg : ParentsPreserving g) : ParentsPreserving (fun ls => g (f ls)) := by
  intro ls ec2 h
  obtain ⟨mid, hmid, he⟩ := hg (f ls) ec2 h
  obtain ⟨ec, hec, he2⟩ := hf ls mid hmid
  exact ⟨ec, hec, he.trans he2⟩

theorem foldl_pp {π : Type} (ts : List (Trans π)) :
    ∀ acc : Trans π, ParentsPreserving acc → (∀ T ∈ ts, ParentsPreserving T) →
      ParentsPreserving
        (ts.foldl (fun combined transformer => fun liveSet =>
          transformer (combined liveSet)) acc) := by
  induction ts with
  | nil =>
      intro acc ha _
      simpa using ha
  | cons T rest ih =>
      intro acc ha h
      simp only [List.foldl_cons]
      exact ih _ (pp_comp ha (h T (by simp))) (fun T2 hT2 => h T2 (by simp [hT2]))

theorem composeAll_pp {π : Type} (ts : List (Trans π))
    (h : ∀ T ∈ ts, ParentsPreserving T) : ParentsPreserving (composeAll ts) :=
  foldl_pp ts (fun x => x) pp_id h

mutual

theorem compileItem_pp {π : Type} (dom : Elem → List Elem) :
    ∀ (i : Selector) (T : Trans π), compileItem dom i = .ok T → ParentsPreserving T
  | .str p, T, h => by
      rw [compileItem] at h
      cases h
      intro ls ec2 hmem
      simp only [List.mem_flatMap, List.mem_map] at hmem
      obtain ⟨ec, hec, e, _, rfl⟩ := hmem
      exact ⟨ec, hec, rfl⟩
  | .filterOp p, T, h => by
      rw [compileItem] at h
      cases h
      intro ls ec2 hmem
      exact ⟨ec2, List.mem_of_mem_filter hmem, rfl⟩
  | .mapOp f, T, h => by
      rw [compileItem] at h
      cases h
      intro ls ec2 hmem
      simp only [List.mem_filterMap, Option.map_eq_some'] at hmem
      obtain ⟨ec, hec, e, _, rfl⟩ := hmem
      exact ⟨ec, hec, rfl⟩
  | .logOp s, T, h => by
      rw [compileItem] at h
      cases h
      intro ls ec2 hmem
      exact ⟨ec2, List.mem_of_mem_filter hmem, rfl⟩
  | .watchOp a c, T, h => by
      rw [compileItem] at h
      cases h
  | .orOp bs, T, h => by
      rw [compileItem] at h
      rcases hb : compileBranches (π := π) dom bs with e | ts
      · rw [hb] at h
        cases h
      · rw [hb] at h
        cases h
        intro ls ec2 hmem
        simp only [List.mem_flatten, List.mem_map] at hmem
        obtain ⟨_, ⟨t, ht, rfl⟩, hmem2⟩ := hmem
        exact compileBranches_pp dom bs ts hb t ht ls ec2 hmem2

theorem compileItems_pp {π : Type} (dom : Elem → List Elem) :
    ∀ (l : List Selector) (ts : List (Trans π)), compileItems dom l = .ok ts →
      ∀ T ∈ ts, ParentsPreserving T
  | [], ts, h => by
      rw [compileItems] at h
      cases h
      intro T hT
      cases hT
  | i :: rest, ts, h => by
      rw [compileItems] at h
      rcases hi : compileItem (π := π) dom i with e | t
      · rw [hi] at h
        cases h
      · rw [hi] at h
        rcases hr : compileItems (π := π) dom rest with e | ts2
        · rw [hr] at h
          cases h
        · rw [hr] at h
          cases h
          intro T hT
          rcases List.mem_cons.mp hT with rfl | hT2
          · exact compileItem_pp dom i T hi
          · exact compileItems_pp dom rest ts2 hr T hT2

theorem compileBranches_pp {π : Type} (dom : Elem → List Elem) :
    ∀ (bs : List (List Selector)) (ts : List (Trans π)),
      compileBranches dom bs = .ok ts → ∀ T ∈ ts, ParentsPreserving T
  | [], ts, h => by
      rw [compileBranches] at h
      cases h
      intro T hT
      cases hT
  | b :: bs, ts, h => by
      rw [compileBranches] at h
      rcases hb : compileItems (π := π) dom b with e | bts
      · rw [hb] at h
        cases h
      · rw [hb] at h
        rcases hr : compileBranches (π := π) dom bs with e | ts2
        · rw [hr] at h
          cases h
        · rw [hr] at h
          cases h
          intro T hT
          rcases List.mem_cons.mp hT with rfl | hT2
          · exact composeAll_pp bts (compileItems_pp dom b bts hb)
          · exact compileBranches_pp dom bs ts2 hr T hT2

end

theorem makeLiveSetTransformer_pp {π : Type} (dom : Elem → List Elem)
    (sels : List Selector) (T : Trans π)
    (h : makeLiveSetTransformer dom sels = .ok T) : ParentsPreserving T := by
  rw [makeLiveSetTransformer] at h
  rcases hi : compileItems (π := π) dom sels with e | ts
  · rw [hi] at h
    cases h
  · rw [hi] at h
    cases h
    exact composeAll_pp ts (compileItems_pp dom sels ts hi)


/-- Claim C7: every element context emitted by a stage that does not
itself add a new tagged ancestor — any single compiled operator (string,
filter, map, log, or), any whole compiled pipeline, and the outputs of
the modelled filtered-child engine — carries the parents value of the
input context it derives from; with the parents type opaque this is
reference identity, not content equality. -/
theorem claim_C7 :
    (∀ (π : Type) (dom : Elem → List Elem) (i : Selector) (T : Trans π),
        compileItem dom i = .ok T → ParentsPreserving T) ∧
    (∀ (π : Type) (dom : Elem → List Elem) (sels : List Selector) (T : Trans π),
        makeLiveSetTransformer dom sels = .ok T → ParentsPreserving T) ∧
    (∀ (π : Type) (dom : Elem → List Elem) (ec : ECtx π) (p : Elem → Bool)
        (ec2 : ECtx π), ec2 ∈ makeFilteredEcChildLiveSet dom ec p →
        ec2.parents = ec.parents) := by
  refine ⟨fun π dom i T h => compileItem_pp dom i T h,
    fun π dom sels T h => makeLiveSetTransformer_pp dom sels T h, ?_⟩
  intro π dom ec p ec2 hmem
  simp only [makeFilteredEcChildLiveSet, List.mem_map] at hmem
  obtain ⟨e, _, rfl⟩ := hmem
  rfl

/-- Witness for claim C7: the filtered-child engine output for element 1
under a root context with parents reference 7 carries reference 7. -/
theorem claim_C7_witness :
    (⟨1, 7⟩ : ECtx Nat).parents = (⟨0, 7⟩ : ECtx Nat).parents :=
  claim_C7.2.2 Nat (fun _ => [1]) ⟨0, 7⟩ (fun _ => true) ⟨1, 7⟩
    (by simp [makeFilteredEcChildLiveSet])

/-- Claim C10: the root matched set seeds parents as the one-entry list
holding the untagged root pair; compiled pipelines preserve the
property that a context's parents list starts with that pair, and the
node-placement step appends to a copy, also preserving it; and for any
context with this property findParentNode cannot reach its
no-qualifying-ancestor throw, because the head entry with absent tag
always qualifies. -/
theorem claim_C10 :
    (∀ rootEl : Elem, headRooted ⟨rootEl, [⟨none, rootNode⟩]⟩) ∧
    (∀ (dom : Elem → List Elem) (sels : List Selector) (T : Trans PList),
        makeLiveSetTransformer dom sels = .ok T →
        ∀ ls, (∀ ec ∈ ls, headRooted ec) → ∀ ec2 ∈ T ls, headRooted ec2) ∧
    (∀ (tag : String) (ownedBy : List String) (st st2 : OrchState)
        (e2n e2n2 : List (Elem × TreeNode)) (ec ec2 : ECtx PList),
        outputMapStep tag ownedBy st e2n ec = (st2, e2n2, .ok ec2) →
        headRooted ec → headRooted ec2) ∧
    (∀ (ownedBy : List String) (ec : ECtx PList), headRooted ec →
        ∃ n, findParentNode ownedBy ec.parents = .ok n) := by
  refine ⟨fun _ => rfl, ?_, ?_, ?_⟩
  · intro dom sels T hT ls hls ec2 hmem
    obtain ⟨ec, hec, he⟩ := makeLiveSetTransformer_pp dom sels T hT ls ec2 hmem
    rw [headRooted, he]
    exact hls ec hec
  · intro tag ownedBy st st2 e2n e2n2 ec ec2 h hec
    rw [outputMapStep] at h
    rcases hfp : findParentNode ownedBy ec.parents with e | p
    · rw [hfp] at h
      simp at h
    · rw [hfp] at h
      by_cases hdup : (e2n.lookup ec.el).isSome
      · simp [hdup] at h
      · simp only [hdup, Bool.false_eq_true, if_false, ite_false,
          eq_self_iff_true, Prod.mk.injEq] at h
        have hec2 : ec2 = ⟨ec.el, ec.parents ++ [⟨some tag, ⟨st.tree.nextId⟩⟩]⟩ := by
          have := h.2.2
          exact (Except.ok.inj this).symm
        rw [headRooted, hec2]
        rw [headRooted] at hec
        simp [List.head?_append, hec]
  · intro ownedBy ec hec
    rcases hps : ec.parents with _ | ⟨a, t⟩
    · rw [headRooted, hps] at hec
      cases hec
    · rw [headRooted, hps] at hec
      simp only [List.head?_cons, Option.some.injEq] at hec
      have hq : qualifiesAsOwner ownedBy a = true := by
        rw [hec]
        rfl
      have hsome : (((a :: t).reverse).find? (qualifiesAsOwner ownedBy)).isSome = true := by
        rw [List.find?_isSome]
        exact ⟨a, by simp, hq⟩
      rw [findParentNode,
        findParentLoop_eq_find ownedBy (a :: t) (a :: t).length le_rfl,
        List.take_length]
      rcases hfind : ((a :: t).reverse).find? (qualifiesAsOwner ownedBy) with _ | pr
      · rw [hfind] at hsome
        cases hsome
      · simp [hfind]

/-- Witness for claim C10: placement of a context seeded by the root
matched set never throws in findParentNode, even with an empty ownedBy
set. -/
theorem claim_C10_witness :
    (findParentNode []
      (⟨0, [⟨none, rootNode⟩]⟩ : ECtx PList).parents).isOk = true := by
  obtain ⟨n, hn⟩ := claim_C10.2.2.2 [] ⟨0, [⟨none, rootNode⟩]⟩ (by rfl)
  rw [hn]
  rfl


theorem compileBranches_spec {π : Type} (dom : Elem → List Elem) :
    ∀ (bs : List (List Selector)) (ts : List (Trans π)),
      compileBranches dom bs = .ok ts →
      ts.length = bs.length ∧
      ∀ j (hj : j < bs.length), ∃ bts, compileItems dom bs[j] = .ok bts ∧
        ts[j]? = some (composeAll bts)
  | [], ts, h => by
      rw [compileBranches] at h
      cases h
      exact ⟨rfl, fun j hj => absurd hj (by simp)⟩
  | b :: bs, ts, h => by
      rw [compileBranches] at h
      rcases hb : compileItems (π := π) dom b with e | bts
      · rw [hb] at h
        cases h
      · rw [hb] at h
        rcases hr : compileBranches (π := π) dom bs with e | ts2
        · rw [hr] at h
          cases h
        · rw [hr] at h
          cases h
          obtain ⟨hlen, hidx⟩ := compileBranches_spec dom bs ts2 hr
          refine ⟨by simp [hlen], ?_⟩
          intro j hj
          cases j with
          | zero => exact ⟨bts, hb, by simp⟩
          | succ k =>
              have hk : k < bs.length := by simpa using hj
              obtain ⟨bts2, h1, h2⟩ := hidx k hk
              exact ⟨bts2, by simpa using h1, by simpa using h2⟩

/-- Claim C8: the transformation compiled for an or-operator, applied to
an input set, equals the merge (list concatenation, order preserved) of
the pipelines compiled for each branch applied independently to that
same input; occurrence counts add across branches, so duplicate matches
are preserved as separate entries, and the compiled branch list pairs
off with the declared branches. -/
theorem claim_C8 {π : Type} [DecidableEq π] (dom : Elem → List Elem)
    (branches : List (List Selector)) (ts : List (Trans π)) (T : Trans π)
    (hb : compileBranches dom branches = .ok ts)
    (hT : compileItem dom (.orOp branches) = .ok T) (ls : List (ECtx π)) :
    T ls = (ts.map (fun t => t ls)).flatten ∧
    (∀ x : ECtx π, (T ls).count x = (ts.map (fun t => (t ls).count x)).sum) ∧
    ts.length = branches.length ∧
    (∀ j (hj : j < branches.length), ∃ bts, compileItems dom branches[j] = .ok bts ∧
      ts[j]? = some (composeAll bts)) := by
  rw [compileItem, hb] at hT
  cases hT
  refine ⟨rfl, ?_, (compileBranches_spec dom branches ts hb).1,
    (compileBranches_spec dom branches ts hb).2⟩
  intro x
  rw [List.count_flatten, List.map_map]
  rfl

/-- Witness for claim C8: an or-operator with two empty branches (each
the identity pipeline) duplicates its one-element input, so the merged
output keeps both copies and the count of the element doubles. -/
theorem claim_C8_witness :
    ((fun liveSet => ((([composeAll [], composeAll []] : List (Trans Nat)).map
        (fun t => t liveSet))).flatten) [(⟨1, 7⟩ : ECtx Nat)] =
      ((([composeAll [], composeAll []] : List (Trans Nat)).map
        (fun t => t [(⟨1, 7⟩ : ECtx Nat)]))).flatten) ∧
    (((fun liveSet => ((([composeAll [], composeAll []] : List (Trans Nat)).map
        (fun t => t liveSet))).flatten) [(⟨1, 7⟩ : ECtx Nat)]).count ⟨1, 7⟩ =
      (([composeAll [], composeAll []] : List (Trans Nat)).map
        (fun t => (t [(⟨1, 7⟩ : ECtx Nat)]).count ⟨1, 7⟩)).sum) ∧
    ([composeAll [], composeAll []] : List (Trans Nat)).length =
      ([[], []] : List (List Selector)).length ∧
    ([composeAll [], composeAll []] : List (Trans Nat))[0]? =
      some (composeAll ([] : List (Trans Nat))) := by
  have h := claim_C8 (fun _ => []) [[], []] [composeAll [], composeAll []]
    (fun liveSet => ((([composeAll [], composeAll []] : List (Trans Nat)).map
      (fun t => t liveSet))).flatten)
    (by simp [compileBranches, compileItems])
    (by simp [compileItem, compileBranches, compileItems]) [⟨1, 7⟩]
  refine ⟨h.1, h.2.1 ⟨1, 7⟩, h.2.2.1, ?_⟩
  obtain ⟨bts, hb, hidx⟩ := h.2.2.2 0 (by simp)
  simp only [List.getElem_cons_zero] at hb
  rw [compileItems] at hb
  rw [(Except.ok.inj hb).symm] at hidx
  exact hidx


theorem lookup_append {α β : Type} [BEq α] (a : α) (l1 l2 : List (α × β)) :
    (l1 ++ l2).lookup a = ((l1.lookup a).or (l2.lookup a)) := by
  induction l1 with
  | nil => simp [List.lookup]
  | cons h t ih =>
      rcases h with ⟨k, v⟩
      rw [List.cons_append, List.lookup_cons, List.lookup_cons]
      rcases hak : a == k with _ | _
      · simpa [hak] using ih
      · simp [hak]

theorem collectTagOptions_preserve (u : String) (v : TagOptions) :
    ∀ (ws : List Watcher) (tagsOpt : List (String × TagOptions)),
      tagsOpt.lookup u = some v →
      (collectTagOptions tagsOpt ws).lookup u = some v
  | [], tagsOpt, h => by simpa [collectTagOptions] using h
  | w :: rest, tagsOpt, h => by
      rw [collectTagOptions]
      by_cases hw : (tagsOpt.lookup w.tag).isSome
      · rw [if_pos hw]
        exact collectTagOptions_preserve u v rest tagsOpt h
      · rw [if_neg hw]
        apply collectTagOptions_preserve u v rest
        rw [lookup_append, h]
        rfl

theorem collectTagOptions_dest (u : String) :
    ∀ (ws : List Watcher) (tagsOpt : List (String × TagOptions)),
      tagsOpt.lookup u = none → u ∈ ws.map (fun w => w.tag) →
      (collectTagOptions tagsOpt ws).lookup u = some ⟨none⟩
  | [], _, _, hmem => by simp at hmem
  | w :: rest, tagsOpt, h, hmem => by
      rw [collectTagOptions]
      by_cases hwu : w.tag = u
      · have hnone : (tagsOpt.lookup w.tag).isSome = false := by
          rw [hwu, h]
          rfl
        rw [if_neg (by simp [hnone])]
        apply collectTagOptions_preserve u ⟨none⟩ rest
        rw [lookup_append, h]
        have : (u == w.tag) = true := by simp [hwu]
        simp [List.lookup_cons, this]
      · have hmem2 : u ∈ rest.map (fun w2 => w2.tag) := by
          rcases List.mem_map.mp hmem with ⟨w2, hw2, he⟩
          rcases List.mem_cons.mp hw2 with rfl | hw3
          · exact absurd he hwu
          · exact List.mem_map.mpr ⟨w2, hw3, he⟩
        by_cases hw : (tagsOpt.lookup w.tag).isSome
        · rw [if_pos hw]
          exact collectTagOptions_dest u rest tagsOpt h hmem2
        · rw [if_neg hw]
          apply collectTagOptions_dest u rest
          · rw [lookup_append, h]
            have : (u == w.tag) = false := by
              simpa using fun hh => hwu (by simp [hh])
            simp [List.lookup_cons, this]
          · exact hmem2

theorem lookup_isSome_contains_fst (u : String) :
    ∀ l : List (String × TagOptions), (l.lookup u).isSome = true →
      (l.map (fun q => q.1)).contains u = true
  | [], h => by simp [List.lookup] at h
  | (k, v) :: rest, h => by
      rw [List.lookup_cons] at h
      by_cases hk : (u == k) = true
      · simp [List.contains_cons, hk]
      · have hf : (u == k) = false := by simpa using hk
        rw [hf] at h
        rw [List.map_cons, List.contains_cons, hf]
        simpa using lookup_isSome_contains_fst u rest h

theorem resolveSources_ok (declared : List String) :
    ∀ ss : List (Option String),
      (∀ s ∈ ss, ∀ t, s = some t → declared.contains t = true) →
      resolveWatcherSources declared ss = .ok ()
  | [], _ => by rw [resolveWatcherSources]
  | none :: rest, h => by
      rw [resolveWatcherSources]
      exact resolveSources_ok declared rest (fun s hs => h s (by simp [hs]))
  | some t :: rest, h => by
      rw [resolveWatcherSources]
      have ht := h (some t) (by simp) t rfl
      rw [if_pos ht]
      exact resolveSources_ok declared rest (fun s hs => h s (by simp [hs]))

theorem resolveSources_error (declared : List String) (t : String)
    (ht : declared.contains t = false) :
    ∀ (ss1 ss2 : List (Option String)),
      (∀ s ∈ ss1, ∀ u, s = some u → declared.contains u = true) →
      resolveWatcherSources declared (ss1 ++ some t :: ss2) =
        .error ("Unknown source: " ++ t)
  | [], ss2, _ => by
      rw [List.nil_append, resolveWatcherSources]
      rw [if_neg (by rw [ht]; simp)]
  | none :: rest, ss2, h => by
      rw [List.cons_append, resolveWatcherSources]
      exact resolveSources_error declared t ht rest ss2
        (fun s hs => h s (by simp [hs]))
  | some u :: rest, ss2, h => by
      rw [List.cons_append, resolveWatcherSources]
      have hu := h (some u) (by simp) u rfl
      rw [if_pos hu]
      exact resolveSources_error declared t ht rest ss2
        (fun s hs => h s (by simp [hs]))

theorem validateWatchers_error (declared : List String) (t : String) :
    ∀ (ws1 : List Watcher) (w : Watcher) (ws2 : List Watcher),
      (∀ w2 ∈ ws1, ∀ s ∈ w2.sources, ∀ u, s = some u → declared.contains u = true) →
      resolveWatcherSources declared w.sources = .error ("Unknown source: " ++ t) →
      validateWatchers declared (ws1 ++ w :: ws2) = .error ("Unknown source: " ++ t)
  | [], w, ws2, _, hres => by
      rw [List.nil_append, validateWatchers, hres]
  | w2 :: rest, w, ws2, h, hres => by
      rw [List.cons_append, validateWatchers]
      have hok : resolveWatcherSources declared w2.sources = .ok () :=
        resolveSources_ok declared w2.sources (h w2 (by simp))
      rw [hok]
      exact validateWatchers_error declared t rest w ws2
        (fun w3 hw3 => h w3 (by simp [hw3])) hres

/-- Claim C6: a watcher source naming a tag that is neither declared in
the tags option nor the destination tag of any watcher makes
construction throw `Unknown source: <tag>` synchronously, with the tree
still in its initial state — no tagged node has been created for any
watcher; and a tag appearing only as some watcher destination is
collected as declared with the defaulted empty options (no ownership
restriction), so sources naming it resolve. -/
theorem claim_C6 (dom : Elem → List Elem) (rootEl : Elem)
    (opts : PageParserTreeOptions) (ws1 ws2 : List Watcher) (w : Watcher)
    (ss1 ss2 : List (Option String)) (t : String) (declared : List String)
    (hdecl : declared = (collectTagOptions opts.tags opts.watchers).map (fun q => q.1))
    (hsplit : opts.watchers = ws1 ++ w :: ws2)
    (hw1 : ∀ w2 ∈ ws1, ∀ s ∈ w2.sources, ∀ u, s = some u → declared.contains u = true)
    (hws : w.sources = ss1 ++ some t :: ss2)
    (hss1 : ∀ s ∈ ss1, ∀ u, s = some u → declared.contains u = true)
    (ht : declared.contains t = false)
    (hcomp : ∃ ts, compileWatchers dom opts.watchers = .ok ts) :
    construct dom rootEl opts = .error ("Unknown source: " ++ t, initialTree) ∧
    initialTree.taggedNodes = [] ∧
    (∀ u, opts.tags.lookup u = none → u ∈ opts.watchers.map (fun w2 => w2.tag) →
      ((collectTagOptions opts.tags opts.watchers).lookup u = some ⟨none⟩ ∧
        declared.contains u = true)) := by
  obtain ⟨ts, hts⟩ := hcomp
  have hres : resolveWatcherSources declared w.sources =
      .error ("Unknown source: " ++ t) := by
    rw [hws]
    exact resolveSources_error declared t ht ss1 ss2 hss1
  have hval : validateWatchers declared opts.watchers =
      .error ("Unknown source: " ++ t) := by
    rw [hsplit]
    exact validateWatchers_error declared t ws1 w ws2 hw1 hres
  rw [hdecl] at hval
  refine ⟨by simp [construct, hts, hval], rfl, ?_⟩
  intro u hu hmem
  have hlook := collectTagOptions_dest u opts.watchers opts.tags hu hmem
  refine ⟨hlook, ?_⟩
  rw [hdecl]
  exact lookup_isSome_contains_fst u _ (by simp [hlook])


/-- Witness for claim C6: a configuration with one declared tag, one
watcher whose destination tag is undeclared (so it is collected and
defaulted) and whose source names a tag that is neither declared nor
any destination. -/
theorem claim_C6_witness :
    construct (fun _ => []) 0
      { tags := [("a", ⟨none⟩)], watchers := [⟨[some "nope"], "b", []⟩] } =
      .error ("Unknown source: " ++ "nope", initialTree) ∧
    initialTree.taggedNodes = [] ∧
    ((collectTagOptions [("a", ⟨none⟩)] [⟨[some "nope"], "b", []⟩]).lookup "b" =
        some ⟨none⟩ ∧
      (["a", "b"] : List String).contains "b" = true) := by
  have h := claim_C6 (fun _ => []) 0
    { tags := [("a", ⟨none⟩)], watchers := [⟨[some "nope"], "b", []⟩] }
    [] [] ⟨[some "nope"], "b", []⟩ [] [] "nope" ["a", "b"]
    (by rfl) rfl (by intro w2 hw2; exact absurd hw2 (List.not_mem_nil w2))
    rfl (by intro s hs; exact absurd hs (List.not_mem_nil s))
    (by rfl)
    ⟨[composeAll []], by simp [compileWatchers, makeLiveSetTransformer, compileItems]⟩
  exact ⟨h.1, h.2.1, h.2.2 "b" (by rfl) (by simp)⟩

end PageParser
